import Mathlib

/-!
Verification of the NOX Newton-solver driver of hermes2d
(src/hermes2d/include/solver/nox_solver.h).

The header under verification is declaration-only: it declares
DiscreteProblemNOX (computeF / computeJacobian / computePreconditioner,
set_precond / get_precond) and NewtonSolverNOX (solve, the convergence
parameter record conv_t, the enabled-test bit record conv_flag_t, the
linear-solver and preconditioner-reuse setters) together with extensive
doc comments, but contains no function bodies.  The driver loop, the
convergence-test composition and the preconditioner-reuse behaviour are
therefore modelled from the specification, faithful to its words; the
record layouts (conv_t, conv_flag_t) and the documented defaults
("Recompute", 999) are taken from the header itself.

Vectors are lists of rationals; the machine floating-point type is
modelled by exact rational arithmetic.
-/

/-- Executable absolute value on ℚ (agrees with the lattice one, see
rabs_eq_abs). -/
def rabs (a : ℚ) : ℚ :=
  if a < 0 then -a else a

theorem rabs_eq_abs (a : ℚ) : rabs a = |a| := by
  unfold rabs
  split
  · rw [abs_of_neg]
    assumption
  · rw [abs_of_nonneg]
    linarith

/-- Modelled from the spec: the one-norm used as the residual norm.  The
norm-kind knob (one/two/max) applies uniformly to the residual tests, so
the driver below is additionally parametrised by an abstract norm
function; this concrete one-norm instantiates it in witnesses. -/
def onorm (v : List ℚ) : ℚ :=
  (v.map (fun a => rabs a)).sum

/-- Componentwise vector addition (the update x := x + δx). -/
def addVec (x y : List ℚ) : List ℚ :=
  List.zipWith (fun a b => a + b) x y

/-- Componentwise vector negation (right-hand side −F(x) of the linear solve). -/
def negVec (x : List ℚ) : List ℚ :=
  x.map (fun a => -a)

/-- The convergence parameter record of NewtonSolverNOX
(struct conv_t, nox_solver.h lines 210-220).  The two norm-selection
fields are carried as declared; the driver abstracts the selected norm
as a function (see Problem.normF). -/
inductive NormType
  | OneNorm
  | TwoNorm
  | MaxNorm
deriving DecidableEq

/-- The scale-by-problem-size knob of the residual tests
(NOX::StatusTest::NormF::ScaleType, nox_solver.h line 216). -/
inductive ScaleType
  | Scaled
  | Unscaled
deriving DecidableEq

/-- struct conv_t of NewtonSolverNOX (nox_solver.h lines 210-220). -/
structure conv_t where
  max_iters : Nat
  abs_resid : ℚ
  rel_resid : ℚ
  norm_type : NormType
  stype : ScaleType
  update : ℚ
  wrms_rtol : ℚ
  wrms_atol : ℚ
deriving DecidableEq

/-- struct conv_flag_t of NewtonSolverNOX (nox_solver.h lines 222-228):
which of the four convergence tests are enabled. -/
structure conv_flag_t where
  absresid : Bool
  relresid : Bool
  wrms : Bool
  update : Bool
deriving DecidableEq

/-- Modelled from the spec: the mean of squares of the weighted update
components, weight_i = 1/(atol + rtol·|x_i|); the WRMS test value is the
square root of this quantity (the root-mean-square of δx_i · weight_i).
The WRMS reduction itself is not in src (only the setter set_conv_wrms
is declared, nox_solver.h lines 166-169). -/
def wrmsMeanSq (rtol atol : ℚ) (x δx : List ℚ) : ℚ :=
  (List.zipWith (fun xi di => (di * (1 / (atol + rtol * rabs xi)))^2) x δx).sum
    / (x.length : ℚ)

/-- Modelled from the spec: the WRMS convergence test is satisfied when
the root-mean-square of the weighted update components is at most 1;
equivalently, when the mean of their squares is at most 1. -/
def wrmsSat (rtol atol : ℚ) (x δx : List ℚ) : Bool :=
  decide (wrmsMeanSq rtol atol x δx ≤ 1)

/-- Modelled from the spec: the RelResid test, with the residual norm of
the first iteration as denominator; vacuously unsatisfied when that
initial norm is zero (no division by zero, no error).  Only the setter
set_conv_rel_resid is declared in src (nox_solver.h lines 158-159). -/
def relResidSat (c : conv_t) (f0n fn : ℚ) : Bool :=
  if f0n = 0 then false else decide (fn / f0n ≤ c.rel_resid)

/-- Modelled from the spec: the OR-composition of the enabled convergence
tests (AbsResid, RelResid, Update, WRMS) evaluated after an iteration;
any satisfied enabled test stops the iteration.  The composition logic is
not in src; the enabled-test record conv_flag_t is
(nox_solver.h lines 222-228). -/
def testsSatisfied (c : conv_t) (fl : conv_flag_t) (f0n fn dn : ℚ)
    (x δx : List ℚ) : Bool :=
  (fl.absresid && decide (fn ≤ c.abs_resid))
  || (fl.relresid && relResidSat c f0n fn)
  || (fl.update && decide (dn ≤ c.update))
  || (fl.wrms && wrmsSat c.wrms_rtol c.wrms_atol x δx)

/-- Modelled from the spec: the adapter contract consumed by the driver.
computeF and computeJacobian return none on ComputationError; linsolve
is the external linear solver (solving J·δ = rhs) and returns none on
LinearSolveError; normF is the residual norm selected by the norm-kind
and scale knobs. -/
structure Problem (J : Type) where
  computeF : List ℚ → Option (List ℚ)
  computeJacobian : List ℚ → Option J
  linsolve : J → List ℚ → Option (List ℚ)
  normF : List ℚ → ℚ

/-- The terminal states of the NewtonDriver state machine. -/
inductive TerminalState
  | Converged
  | Exhausted
  | Failed
deriving DecidableEq

/-- The post-solve record: terminal state, final solution vector, last
residual vector, last Newton step, iteration count (get_num_iters) and
the initial residual norm recorded at solve start. -/
structure SolveResult where
  state : TerminalState
  x : List ℚ
  f : List ℚ
  lastDelta : List ℚ
  num_iters : Nat
  initNorm : ℚ
deriving DecidableEq

/-- Outcome of one pass of the Newton loop: failure, convergence, or
continuation with the updated state. -/
inductive PassOut
  | fail (r : SolveResult)
  | conv (r : SolveResult)
  | cont (x1 f1 δ : List ℚ) (it : Nat)

/-- Modelled from the spec: one pass of the Iterating loop of
NewtonSolverNOX::solve (body not in src; nox_solver.h line 107 declares
only the signature): compute J(x), solve J·δ = −F(x), update
x := x + δ, increment the iteration count, recompute F, then evaluate
the enabled convergence tests. -/
def newtonPass {J : Type} (p : Problem J) (c : conv_t) (fl : conv_flag_t)
    (f0n : ℚ) (x f : List ℚ) (iter : Nat) : PassOut :=
  match p.computeJacobian x with
  | none => PassOut.fail ⟨TerminalState.Failed, x, f, [], iter, f0n⟩
  | some jac =>
    match p.linsolve jac (negVec f) with
    | none => PassOut.fail ⟨TerminalState.Failed, x, f, [], iter, f0n⟩
    | some δ =>
      match p.computeF (addVec x δ) with
      | none => PassOut.fail ⟨TerminalState.Failed, addVec x δ, f, δ, iter + 1, f0n⟩
      | some f1 =>
        if testsSatisfied c fl f0n (p.normF f1) (p.normF δ) (addVec x δ) δ then
          PassOut.conv ⟨TerminalState.Converged, addVec x δ, f1, δ, iter + 1, f0n⟩
        else
          PassOut.cont (addVec x δ) f1 δ (iter + 1)

/-- Modelled from the spec: the Iterating loop with the remaining
iteration budget as fuel; MaxIters is checked only after the convergence
tests of the current iteration, so Exhausted is reported only from the
continuation branch when the budget is spent. -/
def newtonLoop {J : Type} (p : Problem J) (c : conv_t) (fl : conv_flag_t)
    (f0n : ℚ) : Nat → List ℚ → List ℚ → Nat → SolveResult
  | 0, x, f, iter =>
    match newtonPass p c fl f0n x f iter with
    | PassOut.fail r => r
    | PassOut.conv r => r
    | PassOut.cont x1 f1 δ it => ⟨TerminalState.Exhausted, x1, f1, δ, it, f0n⟩
  | fuel + 1, x, f, iter =>
    match newtonPass p c fl f0n x f iter with
    | PassOut.fail r => r
    | PassOut.conv r => r
    | PassOut.cont x1 f1 _ it => newtonLoop p c fl f0n fuel x1 f1 it

/-- Modelled from the spec: NewtonSolverNOX::solve (nox_solver.h line
107; body not in src).  Computes F(x0) (Failed with 0 iterations on
ComputationError), records the initial residual norm, then runs at most
conv.max_iters Newton iterations. -/
def solve {J : Type} (p : Problem J) (c : conv_t) (fl : conv_flag_t)
    (x0 : List ℚ) : SolveResult :=
  match p.computeF x0 with
  | none => ⟨TerminalState.Failed, x0, [], [], 0, 0⟩
  | some f0 =>
    if c.max_iters = 0 then
      ⟨TerminalState.Exhausted, x0, f0, [], 0, p.normF f0⟩
    else
      newtonLoop p c fl (p.normF f0) (c.max_iters - 1) x0 f0 0

/-- Modelled from the spec: the Newton update rule x := x + δx applied
by NewtonSolverNOX::solve (body not in src), on mathematical vectors. -/
def newtonUpdate {n : ℕ} (x δ : Fin n → ℚ) : Fin n → ℚ := x + δ

/-- The residual F(x) = A·x − b of a linear problem. -/
def linearResidual {n : ℕ} (A : Matrix (Fin n) (Fin n) ℚ) (b x : Fin n → ℚ) :
    Fin n → ℚ :=
  A.mulVec x - b

/-- C1: for a linear residual F(x) = A·x − b with A nonsingular, one
Newton step with the exact linear solve δ = A⁻¹(b − A·x0) gives residual
exactly zero.  The update rule does not consult the convergence tests,
so the statement is independent of their configuration. -/
theorem newton_linear_one_step_residual_zero {n : ℕ}
    (A : Matrix (Fin n) (Fin n) ℚ) (b x0 δ : Fin n → ℚ)
    (hA : IsUnit A.det) (hδ : δ = A⁻¹.mulVec (b - A.mulVec x0)) :
    linearResidual A b (newtonUpdate x0 δ) = 0 := by
  subst hδ
  unfold linearResidual newtonUpdate
  rw [Matrix.mulVec_add, Matrix.mulVec_mulVec, Matrix.mul_nonsing_inv A hA,
    Matrix.one_mulVec]
  abel

/-- Witness for C1 at the concrete input A = 1, b = ![3], x0 = ![0]. -/
theorem newton_linear_one_step_residual_zero_witness :
    linearResidual (1 : Matrix (Fin 1) (Fin 1) ℚ) ![3] (newtonUpdate ![0] ![3]) = 0 := by
  refine newton_linear_one_step_residual_zero 1 ![3] ![0] ![3] (by simp) ?_
  funext i
  simp [Matrix.one_mulVec]

/-- The convergence-test value of a solve result: the OR of the enabled
tests evaluated at the result's final residual, final step and recorded
initial residual norm. -/
def resultTests {J : Type} (p : Problem J) (c : conv_t) (fl : conv_flag_t)
    (r : SolveResult) : Bool :=
  testsSatisfied c fl r.initNorm (p.normF r.f) (p.normF r.lastDelta) r.x r.lastDelta

theorem newtonPass_fail_spec {J : Type} (p : Problem J) (c : conv_t)
    (fl : conv_flag_t) (f0n : ℚ) (x f : List ℚ) (iter : Nat) (r : SolveResult)
    (h : newtonPass p c fl f0n x f iter = PassOut.fail r) :
    r.state = TerminalState.Failed ∧ r.num_iters ≤ iter + 1 ∧ r.initNorm = f0n := by
  unfold newtonPass at h
  split at h
  · injection h with h2
    subst h2
    exact ⟨rfl, Nat.le_succ iter, rfl⟩
  · split at h
    · injection h with h2
      subst h2
      exact ⟨rfl, Nat.le_succ iter, rfl⟩
    · split at h
      · injection h with h2
        subst h2
        exact ⟨rfl, Nat.le_refl _, rfl⟩
      · split at h
        · simp at h
        · simp at h

theorem newtonPass_conv_spec {J : Type} (p : Problem J) (c : conv_t)
    (fl : conv_flag_t) (f0n : ℚ) (x f : List ℚ) (iter : Nat) (r : SolveResult)
    (h : newtonPass p c fl f0n x f iter = PassOut.conv r) :
    r.state = TerminalState.Converged ∧ r.num_iters = iter + 1 ∧
      r.initNorm = f0n ∧
      testsSatisfied c fl f0n (p.normF r.f) (p.normF r.lastDelta) r.x r.lastDelta = true := by
  unfold newtonPass at h
  split at h
  · simp at h
  · split at h
    · simp at h
    · split at h
      · simp at h
      · split at h
        · injection h with h2
          subst h2
          refine ⟨rfl, rfl, rfl, ?_⟩
          assumption
        · simp at h

theorem newtonPass_cont_spec {J : Type} (p : Problem J) (c : conv_t)
    (fl : conv_flag_t) (f0n : ℚ) (x f : List ℚ) (iter : Nat)
    (x1 f1 δ : List ℚ) (it : Nat)
    (h : newtonPass p c fl f0n x f iter = PassOut.cont x1 f1 δ it) :
    it = iter + 1 ∧
      testsSatisfied c fl f0n (p.normF f1) (p.normF δ) x1 δ = false := by
  unfold newtonPass at h
  split at h
  · simp at h
  · split at h
    · simp at h
    · split at h
      · simp at h
      · split at h
        · simp at h
        · injection h with hx hf hd hi
          subst hx
          subst hf
          subst hd
          subst hi
          refine ⟨rfl, ?_⟩
          simp_all

/-- Invariant of the Iterating loop: the recorded initial norm is
preserved, the iteration count is bounded by the fuel, a Converged
result satisfies the enabled-test disjunction at its final state, and an
Exhausted result has spent exactly the full budget with the disjunction
unsatisfied at its final state. -/
theorem newtonLoop_spec {J : Type} (p : Problem J) (c : conv_t)
    (fl : conv_flag_t) (f0n : ℚ) :
    ∀ fuel x f iter,
      (newtonLoop p c fl f0n fuel x f iter).initNorm = f0n ∧
      (newtonLoop p c fl f0n fuel x f iter).num_iters ≤ iter + fuel + 1 ∧
      ((newtonLoop p c fl f0n fuel x f iter).state = TerminalState.Converged →
        resultTests p c fl (newtonLoop p c fl f0n fuel x f iter) = true) ∧
      ((newtonLoop p c fl f0n fuel x f iter).state = TerminalState.Exhausted →
        (newtonLoop p c fl f0n fuel x f iter).num_iters = iter + fuel + 1 ∧
        resultTests p c fl (newtonLoop p c fl f0n fuel x f iter) = false) := by
  intro fuel
  induction fuel with
  | zero =>
    intro x f iter
    cases hp : newtonPass p c fl f0n x f iter with
    | fail r =>
      obtain ⟨hs, hn, hi⟩ := newtonPass_fail_spec p c fl f0n x f iter r hp
      simp only [newtonLoop, hp]
      refine ⟨hi, by omega, ?_, ?_⟩
      · intro hc
        rw [hs] at hc
        cases hc
      · intro hc
        rw [hs] at hc
        cases hc
    | conv r =>
      obtain ⟨hs, hn, hi, ht⟩ := newtonPass_conv_spec p c fl f0n x f iter r hp
      simp only [newtonLoop, hp]
      refine ⟨hi, by omega, ?_, ?_⟩
      · intro _
        unfold resultTests
        rw [hi]
        exact ht
      · intro hc
        rw [hs] at hc
        cases hc
    | cont x1 f1 δ it =>
      obtain ⟨hit, ht⟩ := newtonPass_cont_spec p c fl f0n x f iter x1 f1 δ it hp
      have hL : newtonLoop p c fl f0n 0 x f iter
          = ⟨TerminalState.Exhausted, x1, f1, δ, it, f0n⟩ := by
        unfold newtonLoop
        rw [hp]
      rw [hL]
      subst hit
      refine ⟨rfl, Nat.le_refl _, ?_, ?_⟩
      · intro hc
        simp at hc
      · intro _
        refine ⟨rfl, ?_⟩
        unfold resultTests
        exact ht
  | succ n ih =>
    intro x f iter
    cases hp : newtonPass p c fl f0n x f iter with
    | fail r =>
      obtain ⟨hs, hn, hi⟩ := newtonPass_fail_spec p c fl f0n x f iter r hp
      simp only [newtonLoop, hp]
      refine ⟨hi, by omega, ?_, ?_⟩
      · intro hc
        rw [hs] at hc
        cases hc
      · intro hc
        rw [hs] at hc
        cases hc
    | conv r =>
      obtain ⟨hs, hn, hi, ht⟩ := newtonPass_conv_spec p c fl f0n x f iter r hp
      simp only [newtonLoop, hp]
      refine ⟨hi, by omega, ?_, ?_⟩
      · intro _
        unfold resultTests
        rw [hi]
        exact ht
      · intro hc
        rw [hs] at hc
        cases hc
    | cont x1 f1 δ it =>
      obtain ⟨hit, _⟩ := newtonPass_cont_spec p c fl f0n x f iter x1 f1 δ it hp
      simp only [newtonLoop, hp]
      obtain ⟨ihi, ihn, ihc, ihe⟩ := ih x1 f1 it
      refine ⟨ihi, by omega, ihc, ?_⟩
      intro hc
      obtain ⟨he1, he2⟩ := ihe hc
      exact ⟨by omega, he2⟩

/-- Enabling relresid adds nothing when the recorded initial residual
norm is zero: the RelResid test is then vacuously unsatisfied. -/
theorem testsSatisfied_zero_init (c : conv_t) (fl : conv_flag_t)
    (fn dn : ℚ) (x δx : List ℚ) :
    testsSatisfied c fl 0 fn dn x δx
      = testsSatisfied c ⟨fl.absresid, false, fl.wrms, fl.update⟩ 0 fn dn x δx := by
  simp [testsSatisfied, relResidSat]

/-- C2: the terminal outcome of solve is Converged only when the OR of
the enabled convergence tests holds at the final state; Exhausted only
when the full MaxIters budget was spent with that OR unsatisfied at the
final state (for a positive budget); and a single solve never reports
both, MaxIters being checked only after the tests of the iteration. -/
theorem solve_outcome_classification {J : Type} (p : Problem J)
    (c : conv_t) (fl : conv_flag_t) (x0 : List ℚ) :
    ((solve p c fl x0).state = TerminalState.Converged →
      resultTests p c fl (solve p c fl x0) = true) ∧
    ((solve p c fl x0).state = TerminalState.Exhausted →
      (solve p c fl x0).num_iters = c.max_iters ∧
      (0 < c.max_iters → resultTests p c fl (solve p c fl x0) = false)) ∧
    ¬((solve p c fl x0).state = TerminalState.Converged ∧
      (solve p c fl x0).state = TerminalState.Exhausted) := by
  cases hf : p.computeF x0 with
  | none =>
    have hL : solve p c fl x0 = ⟨TerminalState.Failed, x0, [], [], 0, 0⟩ := by
      unfold solve
      rw [hf]
    rw [hL]
    refine ⟨?_, ?_, ?_⟩
    · intro hc
      simp at hc
    · intro hc
      simp at hc
    · intro hc
      simp at hc
  | some f0 =>
    by_cases hm : c.max_iters = 0
    · have hL : solve p c fl x0
          = ⟨TerminalState.Exhausted, x0, f0, [], 0, p.normF f0⟩ := by
        unfold solve
        rw [hf]
        simp [hm]
      rw [hL]
      refine ⟨?_, ?_, ?_⟩
      · intro hc
        simp at hc
      · intro _
        refine ⟨hm.symm, ?_⟩
        intro hpos
        omega
      · intro hc
        simp at hc
    · have hL : solve p c fl x0
          = newtonLoop p c fl (p.normF f0) (c.max_iters - 1) x0 f0 0 := by
        unfold solve
        rw [hf]
        simp [hm]
      rw [hL]
      obtain ⟨_, _, hc, he⟩ :=
        newtonLoop_spec p c fl (p.normF f0) (c.max_iters - 1) x0 f0 0
      refine ⟨hc, ?_, ?_⟩
      · intro hx
        obtain ⟨he1, he2⟩ := he hx
        refine ⟨by omega, fun _ => he2⟩
      · rintro ⟨h1, h2⟩
        rw [h1] at h2
        cases h2

/-- Witness for C2 at a concrete converging solve: the identity problem
F(x) = x from x0 = [1] with the AbsResid test enabled converges, and the
enabled-test disjunction holds at the final state. -/
def pId : Problem Unit :=
  ⟨fun x => some x, fun _ => some (), fun _ rhs => some rhs, onorm⟩

/-- Concrete convergence parameters used by the witnesses. -/
def cTest : conv_t :=
  ⟨1, 0, 1/2, NormType.OneNorm, ScaleType.Unscaled, 0, 1/1000, 1/1000000⟩

/-- Only the AbsResid test enabled. -/
def flAbs : conv_flag_t := ⟨true, false, false, false⟩

/-- AbsResid and RelResid tests enabled. -/
def flAbsRel : conv_flag_t := ⟨true, true, false, false⟩

theorem solve_outcome_classification_witness :
    resultTests pId cTest flAbs (solve pId cTest flAbs [1]) = true :=
  (solve_outcome_classification pId cTest flAbs [1]).1 (by
    norm_num [solve, newtonLoop, newtonPass, testsSatisfied, relResidSat,
      wrmsSat, wrmsMeanSq, addVec, negVec, onorm, rabs, pId, cTest, flAbs])

/-- C3: for every adapter, every convergence configuration and every
initial guess, solve returns (it is a total function) with an iteration
count bounded by MaxIters; the bound is built into the driver and no
conv_flag_t bit can disable it. -/
theorem solve_iteration_count_bounded {J : Type} (p : Problem J)
    (c : conv_t) (fl : conv_flag_t) (x0 : List ℚ) :
    (solve p c fl x0).num_iters ≤ c.max_iters := by
  cases hf : p.computeF x0 with
  | none =>
    have hL : solve p c fl x0 = ⟨TerminalState.Failed, x0, [], [], 0, 0⟩ := by
      unfold solve
      rw [hf]
    rw [hL]
    exact Nat.zero_le _
  | some f0 =>
    by_cases hm : c.max_iters = 0
    · have hL : solve p c fl x0
          = ⟨TerminalState.Exhausted, x0, f0, [], 0, p.normF f0⟩ := by
        unfold solve
        rw [hf]
        simp [hm]
      rw [hL]
      exact Nat.zero_le _
    · have hL : solve p c fl x0
          = newtonLoop p c fl (p.normF f0) (c.max_iters - 1) x0 f0 0 := by
        unfold solve
        rw [hf]
        simp [hm]
      rw [hL]
      obtain ⟨_, hn, _, _⟩ :=
        newtonLoop_spec p c fl (p.normF f0) (c.max_iters - 1) x0 f0 0
      omega

/-- C5: when the initial residual norm is zero, the RelResid test is
vacuously unsatisfied whatever the current residual norm (no division by
zero, no error), and a Converged outcome must come from the remaining
enabled tests: the disjunction with the relresid bit cleared already
holds at the final state. -/
theorem relresid_zero_initial_norm {J : Type} (p : Problem J)
    (c : conv_t) (fl : conv_flag_t) (x0 f0 : List ℚ)
    (h1 : p.computeF x0 = some f0) (h2 : p.normF f0 = 0) :
    (∀ fn : ℚ, relResidSat c (p.normF f0) fn = false) ∧
    ((solve p c fl x0).state = TerminalState.Converged →
      resultTests p c ⟨fl.absresid, false, fl.wrms, fl.update⟩
        (solve p c fl x0) = true) := by
  constructor
  · intro fn
    rw [h2]
    simp [relResidSat]
  · by_cases hm : c.max_iters = 0
    · have hL : solve p c fl x0
          = ⟨TerminalState.Exhausted, x0, f0, [], 0, p.normF f0⟩ := by
        unfold solve
        rw [h1]
        simp [hm]
      rw [hL]
      intro hc
      simp at hc
    · have hL : solve p c fl x0
          = newtonLoop p c fl (p.normF f0) (c.max_iters - 1) x0 f0 0 := by
        unfold solve
        rw [h1]
        simp [hm]
      rw [hL]
      obtain ⟨hi, _, hc, _⟩ :=
        newtonLoop_spec p c fl (p.normF f0) (c.max_iters - 1) x0 f0 0
      intro hx
      have ht := hc hx
      unfold resultTests at ht ⊢
      rw [hi, h2] at ht ⊢
      rw [← testsSatisfied_zero_init]
      exact ht

theorem relresid_zero_initial_norm_witness :
    relResidSat cTest (pId.normF [0]) 5 = false ∧
    resultTests pId cTest
      ⟨flAbsRel.absresid, false, flAbsRel.wrms, flAbsRel.update⟩
      (solve pId cTest flAbsRel [0]) = true :=
  ⟨(relresid_zero_initial_norm pId cTest flAbsRel [0] [0] rfl
      (by norm_num [pId, onorm, rabs])).1 5,
   (relresid_zero_initial_norm pId cTest flAbsRel [0] [0] rfl
      (by norm_num [pId, onorm, rabs])).2 (by
    norm_num [solve, newtonLoop, newtonPass, testsSatisfied, relResidSat,
      wrmsSat, wrmsMeanSq, addVec, negVec, onorm, rabs, pId, cTest, flAbsRel])⟩

/-- C6: a ComputationError in computeF at the very first residual
evaluation makes solve return the Failed terminal state with iteration
count 0. -/
theorem computeF_first_failure_failed_zero_iters {J : Type}
    (p : Problem J) (c : conv_t) (fl : conv_flag_t) (x0 : List ℚ)
    (h : p.computeF x0 = none) :
    (solve p c fl x0).state = TerminalState.Failed ∧
    (solve p c fl x0).num_iters = 0 := by
  have hL : solve p c fl x0 = ⟨TerminalState.Failed, x0, [], [], 0, 0⟩ := by
    unfold solve
    rw [h]
  rw [hL]
  exact ⟨rfl, rfl⟩

/-- An adapter whose residual evaluation always fails. -/
def pFail : Problem Unit :=
  ⟨fun _ => none, fun _ => some (), fun _ rhs => some rhs, onorm⟩

theorem computeF_first_failure_failed_zero_iters_witness :
    (solve pFail cTest flAbs [0]).state = TerminalState.Failed ∧
    (solve pFail cTest flAbs [0]).num_iters = 0 :=
  computeF_first_failure_failed_zero_iters pFail cTest flAbs [0] rfl

/-- The WRMS mean of squares is nonnegative. -/
theorem wrmsMeanSq_nonneg (rtol atol : ℚ) (x δx : List ℚ) :
    0 ≤ wrmsMeanSq rtol atol x δx := by
  unfold wrmsMeanSq
  apply div_nonneg
  · induction x generalizing δx with
    | nil => simp
    | cons a t ih =>
      cases δx with
      | nil => simp
      | cons b tb =>
        simp only [List.zipWith_cons_cons, List.sum_cons]
        have h1 := ih tb
        have h2 : (0:ℚ) ≤ (b * (1 / (atol + rtol * rabs a)))^2 := sq_nonneg _
        linarith
  · exact_mod_cast Nat.zero_le _

/-- C4: the WRMS test is satisfied exactly when the root-mean-square of
the weighted update components δx_i · (1/(atol + rtol·|x_i|)) is at most
1; at the spec's concrete instance atol = 1e-6, rtol = 1e-3, x = [1,1],
δx = [1e-6,1e-6] the mean of squares is (1/1001)², the test value
(the root-mean-square) is 1/1001 ≈ 0.001, and the test is satisfied. -/
theorem wrms_characterization :
    (∀ (rtol atol : ℚ) (x δx : List ℚ),
      wrmsSat rtol atol x δx = true ↔
        Real.sqrt ((wrmsMeanSq rtol atol x δx : ℚ) : ℝ) ≤ 1) ∧
    wrmsSat (1/1000) (1/1000000) [1, 1] [1/1000000, 1/1000000] = true ∧
    wrmsMeanSq (1/1000) (1/1000000) [1, 1] [1/1000000, 1/1000000]
      = (1/1001)^2 ∧
    Real.sqrt ((wrmsMeanSq (1/1000) (1/1000000) [1, 1]
        [1/1000000, 1/1000000] : ℚ) : ℝ) = 1/1001 ∧
    |(1:ℚ)/1001 - 1/1000| < 1/100000 := by
  have hconc : wrmsMeanSq (1/1000) (1/1000000) [1, 1] [1/1000000, 1/1000000]
      = (1/1001)^2 := by
    norm_num [wrmsMeanSq, rabs]
  refine ⟨?_, ?_, hconc, ?_, ?_⟩
  · intro rtol atol x δx
    unfold wrmsSat
    rw [decide_eq_true_eq]
    have h0 : (0:ℚ) ≤ wrmsMeanSq rtol atol x δx := wrmsMeanSq_nonneg rtol atol x δx
    have h0r : (0:ℝ) ≤ ((wrmsMeanSq rtol atol x δx : ℚ) : ℝ) := by
      exact_mod_cast h0
    constructor
    · intro h
      have hr : ((wrmsMeanSq rtol atol x δx : ℚ) : ℝ) ≤ 1 := by
        exact_mod_cast h
      calc Real.sqrt ((wrmsMeanSq rtol atol x δx : ℚ) : ℝ)
          ≤ Real.sqrt 1 := Real.sqrt_le_sqrt hr
        _ = 1 := Real.sqrt_one
    · intro h
      have hsq := Real.sq_sqrt h0r
      have hnn := Real.sqrt_nonneg ((wrmsMeanSq rtol atol x δx : ℚ) : ℝ)
      have hr : ((wrmsMeanSq rtol atol x δx : ℚ) : ℝ) ≤ 1 := by nlinarith
      exact_mod_cast hr
  · norm_num [wrmsSat, wrmsMeanSq, rabs]
  · rw [hconc]
    push_cast
    rw [Real.sqrt_sq (by norm_num)]
  · rw [abs_of_neg (by norm_num)]
    norm_num

/-- The preconditioner reuse policies of set_precond_reuse
(nox_solver.h lines 172-184), as a closed enumeration. -/
inductive PrecondReusePolicy
  | Rebuild
  | Reuse
  | Recompute
deriving DecidableEq

/-- The observable state of the preconditioner handle: whether it has
ever been constructed, its age (solves since last rebuild) and the
cumulative count of construction-work events. -/
structure PrecondState where
  built : Bool
  age : Nat
  builds : Nat
deriving DecidableEq

/-- Modelled from the spec: the effect of one solve's
computePreconditioner invocation on the preconditioner handle under the
reuse policy (the implementation is not in src; nox_solver.h lines
172-188 declare the policy and max-age setters).  Rebuild destroys and
rebuilds every solve (age 0 at use); Reuse blindly reuses what has been
constructed, constructing only a handle that was never built, with the
age incremented and never reset; Recompute refreshes the handle each
solve, reusing internal structure opaquely. -/
def computePrecondStep : PrecondReusePolicy → PrecondState → PrecondState
  | PrecondReusePolicy.Rebuild, s => ⟨true, 0, s.builds + 1⟩
  | PrecondReusePolicy.Reuse, s =>
      if s.built then ⟨true, s.age + 1, s.builds⟩
      else ⟨true, s.age + 1, s.builds + 1⟩
  | PrecondReusePolicy.Recompute, s => ⟨true, 0, s.builds + 1⟩

/-- Modelled from the spec: a sequence of n consecutive solves with
unchanged Jacobian structure, each invoking computePreconditioner once
under the given policy. -/
def runSolves (pol : PrecondReusePolicy) : Nat → PrecondState → PrecondState
  | 0, s => s
  | n + 1, s => runSolves pol n (computePrecondStep pol s)

theorem runSolves_reuse_built :
    ∀ (n : Nat) (a b : Nat),
      runSolves PrecondReusePolicy.Reuse n ⟨true, a, b⟩ = ⟨true, a + n, b⟩ := by
  intro n
  induction n with
  | zero => intro a b; rfl
  | succ m ih =>
    intro a b
    show runSolves PrecondReusePolicy.Reuse m
      (computePrecondStep PrecondReusePolicy.Reuse ⟨true, a, b⟩) = _
    have hstep : computePrecondStep PrecondReusePolicy.Reuse ⟨true, a, b⟩
        = ⟨true, a + 1, b⟩ := rfl
    rw [hstep, ih (a + 1) b]
    have : a + 1 + m = a + (m + 1) := by omega
    rw [this]

/-- C7: under the Reuse policy, across any number of consecutive solves
the age counter increments by exactly one per solve (it is never reset),
and construction work happens at most once (only for a handle that was
never built). -/
theorem reuse_age_increments_builds_at_most_once (n : Nat) (s : PrecondState) :
    (runSolves PrecondReusePolicy.Reuse n s).age = s.age + n ∧
    (runSolves PrecondReusePolicy.Reuse n s).builds ≤ s.builds + 1 := by
  cases s with
  | mk bu a b =>
    cases bu with
    | true =>
      rw [runSolves_reuse_built n a b]
      exact ⟨rfl, Nat.le_succ b⟩
    | false =>
      cases n with
      | zero => exact ⟨rfl, Nat.le_succ b⟩
      | succ m =>
        have hstep : computePrecondStep PrecondReusePolicy.Reuse ⟨false, a, b⟩
            = ⟨true, a + 1, b + 1⟩ := rfl
        have hunf : runSolves PrecondReusePolicy.Reuse (m + 1) ⟨false, a, b⟩
            = runSolves PrecondReusePolicy.Reuse m
                (computePrecondStep PrecondReusePolicy.Reuse ⟨false, a, b⟩) := rfl
        rw [hunf, hstep, runSolves_reuse_built m (a + 1) (b + 1)]
        refine ⟨?_, ?_⟩
        · show a + 1 + m = a + (m + 1)
          omega
        · show b + 1 ≤ b + 1
          omega

/-- The configuration-validation error channel of the setters
(ConfigurationError of the spec's error taxonomy). -/
inductive ConfigurationError
  | invalidCombination
deriving DecidableEq

/-- Warnings emitted by tolerated-but-ineffective configuration calls. -/
inductive ConfigWarning
  | maxAgeWithoutReuse
deriving DecidableEq

/-- The preconditioner-reuse part of the solver configuration: policy
(set_precond_reuse) and max age (set_precond_max_age). -/
structure PrecondConfig where
  pc_reuse : PrecondReusePolicy
  pc_max_age : Int
deriving DecidableEq

/-- Whether an Except value is a success. -/
def isOk {ε α : Type} : Except ε α → Bool
  | Except.ok _ => true
  | Except.error _ => false

/-- Modelled from the spec: NewtonSolverNOX::set_precond_max_age
(nox_solver.h lines 185-188; body not in src).  Max age is meaningful
only under the Reuse policy; setting it under any other policy is
tolerated as a no-op with a warning, never a ConfigurationError. -/
def set_precond_max_age (cfg : PrecondConfig) (max_age : Int) :
    Except ConfigurationError (PrecondConfig × List ConfigWarning) :=
  match cfg.pc_reuse with
  | PrecondReusePolicy.Reuse =>
      Except.ok (⟨PrecondReusePolicy.Reuse, max_age⟩, [])
  | _ => Except.ok (cfg, [ConfigWarning.maxAgeWithoutReuse])

/-- C8: set_precond_max_age never raises a ConfigurationError, for every
policy and every max-age value; under a policy other than Reuse the
configuration is left unchanged and a warning is emitted. -/
theorem set_precond_max_age_never_errors (cfg : PrecondConfig) (a : Int) :
    isOk (set_precond_max_age cfg a) = true ∧
    (cfg.pc_reuse ≠ PrecondReusePolicy.Reuse →
      set_precond_max_age cfg a
        = Except.ok (cfg, [ConfigWarning.maxAgeWithoutReuse])) := by
  cases cfg with
  | mk r m =>
    cases r with
    | Rebuild => exact ⟨rfl, fun _ => rfl⟩
    | Reuse =>
      refine ⟨rfl, ?_⟩
      intro h
      exact absurd rfl h
    | Recompute => exact ⟨rfl, fun _ => rfl⟩

theorem set_precond_max_age_never_errors_witness :
    isOk (set_precond_max_age ⟨PrecondReusePolicy.Rebuild, 999⟩ 5) = true ∧
    set_precond_max_age ⟨PrecondReusePolicy.Rebuild, 999⟩ 5
      = Except.ok (⟨PrecondReusePolicy.Rebuild, 999⟩,
          [ConfigWarning.maxAgeWithoutReuse]) :=
  ⟨(set_precond_max_age_never_errors ⟨PrecondReusePolicy.Rebuild, 999⟩ 5).1,
   (set_precond_max_age_never_errors ⟨PrecondReusePolicy.Rebuild, 999⟩ 5).2
     (by decide)⟩

/-- Modelled from the spec: the preconditioner configuration of a
freshly constructed NewtonSolverNOX, before any call to
set_precond_reuse or set_precond_max_age.  The constructor body is not
in src; the defaults are the ones documented in the header:
"Recompute" is the default policy (nox_solver.h line 183) and 999 the
default max age (nox_solver.h line 187). -/
def defaultPrecondConfig : PrecondConfig :=
  ⟨PrecondReusePolicy.Recompute, 999⟩

/-- C9: the defaults of a fresh solver are policy Recompute and
max age 999. -/
theorem default_precond_reuse_and_max_age :
    defaultPrecondConfig.pc_reuse = PrecondReusePolicy.Recompute ∧
    defaultPrecondConfig.pc_max_age = 999 :=
  ⟨rfl, rfl⟩

/-- The mutable state of DiscreteProblemNOX (nox_solver.h lines 82-87):
the last-computed Jacobian and the installed preconditioner handle
(a Teuchos::RCP, modelled as an optional handle of abstract type P). -/
structure DiscreteProblemNOXState (P : Type) where
  jacobian : Option (List (List ℚ))
  precond : Option P

/-- Modelled from the spec: DiscreteProblemNOX::set_precond
(nox_solver.h line 63; body not in src) installs the preconditioner
handle, leaving the Jacobian alone. -/
def set_precond {P : Type} (s : DiscreteProblemNOXState P) (pc : P) :
    DiscreteProblemNOXState P :=
  ⟨s.jacobian, some pc⟩

/-- Modelled from the spec: DiscreteProblemNOX::get_precond
(nox_solver.h line 66; body not in src) returns the installed handle. -/
def get_precond {P : Type} (s : DiscreteProblemNOXState P) : Option P :=
  s.precond

/-- Modelled from the spec: the state effect of
DiscreteProblemNOX::computeJacobian (nox_solver.h line 75; body not in
src): it recomputes and stores the Jacobian; computeF produces the
residual without mutating this state, and no operation other than
set_precond touches the installed preconditioner handle. -/
def storeJacobian {P : Type} (s : DiscreteProblemNOXState P)
    (j : List (List ℚ)) : DiscreteProblemNOXState P :=
  ⟨some j, s.precond⟩

/-- C10: set_precond followed by get_precond returns exactly the
installed handle, and the other state-mutating operation of the adapter
(storing a recomputed Jacobian) leaves the installed handle unchanged;
set_precond itself does not touch the stored Jacobian. -/
theorem set_get_precond_roundtrip {P : Type} (s : DiscreteProblemNOXState P)
    (pc : P) (j : List (List ℚ)) :
    get_precond (set_precond s pc) = some pc ∧
    get_precond (storeJacobian s j) = get_precond s ∧
    (set_precond s pc).jacobian = s.jacobian :=
  ⟨rfl, rfl, rfl⟩

theorem solve_iteration_count_bounded_witness :
    (solve pId cTest flAbs [1]).num_iters ≤ cTest.max_iters :=
  solve_iteration_count_bounded pId cTest flAbs [1]

theorem wrms_characterization_witness :
    Real.sqrt ((wrmsMeanSq (1/1000) (1/1000000) [1, 1]
        [1/1000000, 1/1000000] : ℚ) : ℝ) ≤ 1 :=
  (wrms_characterization.1 (1/1000) (1/1000000) [1, 1]
      [1/1000000, 1/1000000]).mp wrms_characterization.2.1

theorem reuse_age_increments_builds_at_most_once_witness :
    (runSolves PrecondReusePolicy.Reuse 3 (PrecondState.mk false 0 0)).age
      = (PrecondState.mk false 0 0).age + 3 ∧
    (runSolves PrecondReusePolicy.Reuse 3 (PrecondState.mk false 0 0)).builds
      ≤ (PrecondState.mk false 0 0).builds + 1 :=
  reuse_age_increments_builds_at_most_once 3 (PrecondState.mk false 0 0)

theorem set_get_precond_roundtrip_witness :
    get_precond (set_precond (DiscreteProblemNOXState.mk none none) (7 : Nat))
      = some 7 ∧
    get_precond (storeJacobian (DiscreteProblemNOXState.mk none (none : Option Nat)) [[1]])
      = get_precond (DiscreteProblemNOXState.mk none (none : Option Nat)) ∧
    (set_precond (DiscreteProblemNOXState.mk none none) (7 : Nat)).jacobian
      = (DiscreteProblemNOXState.mk none (none : Option Nat)).jacobian :=
  set_get_precond_roundtrip (DiscreteProblemNOXState.mk none none) 7 [[1]]
